import Mathlib

/-!
Shallow embedding of the upgrade core of `yay` (`src/upgrade.go`) and
verification of its specification.  Go slices become Lean lists, Go maps of
names become finite sets, channel-delivered streams become lists in arrival
order, and the fallible external collaborators (version parser, source
fetchers) are passed in as explicit values.
-/

namespace Yay

/-- upgrade type describes a system upgrade (src/upgrade.go 17-22). -/
structure upgrade where
  Name : String
  Repository : String
  LocalVersion : String
  RemoteVersion : String
deriving DecidableEq, Repr, Inhabited

/-- upSlice is a slice of upgrades (src/upgrade.go 25). -/
abbrev upSlice := List upgrade

/-- Modelled from the spec: the terminal color wrapper `red` is defined outside
src/; color/emphasis is an opaque presentation attribute, modelled as ANSI SGR
wrapping so distinct emphases yield distinct strings. -/
def red (s : String) : String := "\x1b[31m" ++ s ++ "\x1b[0m"

/-- Modelled from the spec: the terminal color wrapper `green` (outside src/). -/
def green (s : String) : String := "\x1b[32m" ++ s ++ "\x1b[0m"

/-- Modelled from the spec: the terminal emphasis wrapper `bold` (outside src/). -/
def bold (s : String) : String := "\x1b[1m" ++ s ++ "\x1b[0m"

/-- The rune-comparison loop of upSlice.Less (src/upgrade.go 39-56): walk the
two rune slices up to the shorter length; at the first position where the
lowercased runes differ return whether the left one is greater, else at the
first position where the original runes differ return whether the left one is
greater, else after the loop return false.  `Char.toLower` models Go's
`unicode.ToLower` (they agree on ASCII; no claim here depends on the exact
lowering of non-ASCII runes). -/
def lessRunes : List Char → List Char → Bool
  | ir :: is, jr :: js =>
    if ir.toLower ≠ jr.toLower then decide (jr.toLower < ir.toLower)
    else if ir ≠ jr then decide (jr < ir)
    else lessRunes is js
  | _, _ => false

/-- upSlice.Less (src/upgrade.go 30-57): compares the Repository fields of the
two addressed entries, rune by rune.  Go panics on an out-of-range index; the
model totalizes with a default entry, which sort never touches. -/
def Less (u : upSlice) (i j : Nat) : Bool :=
  lessRunes (u.getD i default).Repository.data (u.getD j default).Repository.data

/-- Insertion of one upgrade into an already-arranged list according to the
Less ordering on Repository fields. -/
def insertLess (x : upgrade) : upSlice → upSlice
  | [] => [x]
  | y :: ys =>
    if lessRunes x.Repository.data y.Repository.data then x :: y :: ys
    else y :: insertLess x ys

/-- sort.Sort(repoUp) (src/upgrade.go 295): Go's sort produces an unspecified
Less-respecting permutation; the model fixes insertion sort w.r.t. the same
Less ordering as the deterministic representative. -/
def sortUp (u : upSlice) : upSlice := u.foldr insertLess []

/-- The display stage of upgradePkgs (src/upgrade.go 295-298): the local-repo
list is sorted before printing, the foreign (AUR) list is printed in discovery
order. -/
def displayLists (aurUp repoUp : upSlice) : upSlice × upSlice :=
  (sortUp repoUp, aurUp)

/-- The display number printed for position k of a list of length `len` when
Print is called with `start` (src/upgrade.go 88: `len(u)+start-k-1`). -/
def printNumber (len start k : Nat) : Int :=
  (len : Int) + (start : Int) - (k : Int) - 1

/-- The shape returned by `pkgb.NewCompleteVersion` (external gopkgbuild
library): epoch, pkgver and pkgrel components of a package version.  Note the
`Version` field holds the pkgver only; the epoch is a separate field. -/
structure CompleteVersion where
  Epoch : Nat
  Version : String
  Pkgrel : String
deriving DecidableEq, Repr

/-- getVersionDiff (src/upgrade.go 59-81).  The two arguments are the results
of `pkgb.NewCompleteVersion` on the old and new version strings; `none` models
a parse error.  Go's named string returns start out empty, error markers are
set per failing side, and the display computation runs only when both sides
parsed. -/
def getVersionDiff (old new : Option CompleteVersion) : String × String :=
  let left := if old.isNone then red "Invalid Version" else ""
  let right := if new.isNone then red "Invalid Version" else ""
  match old, new with
  | some o, some n =>
    if o.Version = n.Version then
      (o.Version ++ "-" ++ red o.Pkgrel, n.Version ++ "-" ++ green n.Pkgrel)
    else
      (red o.Version ++ "-" ++ o.Pkgrel, bold (green n.Version) ++ "-" ++ n.Pkgrel)
  | _, _ => (left, right)

/-- Outcome of one source-fetch goroutine in upList (src/upgrade.go 109-120):
the list it sends on its result channel and the value it sends on the shared
error channel (`none` models a nil error). -/
structure FetchResult where
  list : upSlice
  err : Option String
deriving DecidableEq, Repr

/-- What the select loop of upList prints for one received error value
(src/upgrade.go 130-133): a non-nil error is printed, a nil one is not. -/
def optErrLog : Option String → List String
  | some e => [e]
  | none => []

/-- upList (src/upgrade.go 98-144).  `filterErr` is the error of the initial
filterPackages call; on failure upList returns immediately with nil lists and
that error.  Otherwise the select loop receives each fetcher's error (printing
it, never assigning the named return) and each fetcher's list (assigning aurUp
and repoUp exactly once), so the data flow is deterministic even though the
channel arrival order is not; the model fixes the repo-then-aur log order.
Result: (aurUp, repoUp, returned error, printed errors). -/
def upList (filterErr : Option String) (repoRes aurRes : FetchResult) :
    upSlice × upSlice × Option String × List String :=
  match filterErr with
  | some e => ([], [], some e, [])
  | none => (aurRes.list, repoRes.list, none, optErrLog repoRes.err ++ optErrLog aurRes.err)

/-- The shape of an installed package as seen through go-alpm in upDevel and
upAUR (external alpm library): name, installed version and the
ignore-upgrades flag. -/
structure alpmPackage where
  Name : String
  Version : String
  ShouldIgnore : Bool
deriving DecidableEq, Repr

/-- The matching loop of upDevel (src/upgrade.go 150-156): scans all of
`remote` without breaking, so the last entry with the wanted name wins. -/
def findLast (remote : List alpmPackage) (name : String) : Option alpmPackage :=
  remote.foldl (fun acc r => if r.Name = name then some r else acc) none

/-- The three observable effects of upDevel per VCS entry: upgrade records
sent on the package channel, ignore warnings printed, and names passed to
removeVCSPackage. -/
structure DevelOut where
  upgrades : List upgrade
  warnings : List String
  removals : List String
deriving DecidableEq, Repr

/-- Concatenation of per-entry upDevel effects. -/
def DevelOut.append (a b : DevelOut) : DevelOut :=
  ⟨a.upgrades ++ b.upgrades, a.warnings ++ b.warnings, a.removals ++ b.removals⟩

/-- The body of upDevel for one savedInfo entry (src/upgrade.go 147-168):
entries whose needsUpdate predicate is false are skipped; otherwise the
matching installed package is looked up in `remote`; an ignore-flagged match
yields only a warning, an unflagged match yields an upgrade record with the
synthetic "latest-commit" candidate version, and a missing match yields a
removeVCSPackage request for the entry's name. -/
def upDevelEntry (remote : List alpmPackage) (vcsName : String) (needsUpdate : Bool) :
    DevelOut :=
  if needsUpdate then
    match findLast remote vcsName with
    | some pkg =>
      if pkg.ShouldIgnore then ⟨[], [pkg.Name], []⟩
      else ⟨[⟨pkg.Name, "devel", pkg.Version, "latest-commit"⟩], [], []⟩
    | none => ⟨[], [], [vcsName]⟩
  else ⟨[], [], []⟩

/-- upDevel (src/upgrade.go 146-170) over a savedInfo store given as a list of
(vcs name, needsUpdate) pairs; Go map iteration order is unspecified, so the
store is taken in some fixed order. -/
def upDevel (remote : List alpmPackage) (savedInfo : List (String × Bool)) : DevelOut :=
  savedInfo.foldl (fun acc e => acc.append (upDevelEntry remote e.1 e.2)) ⟨[], [], []⟩

/-- The duplicate scan of the upAUR receive loop (src/upgrade.go 218-222):
iterates the accumulated list; the `continue` on a name match only advances
the scan, so the loop has no effect on any state. -/
def dedupScan (toUpgrade : List upgrade) (pkg : upgrade) : Unit :=
  toUpgrade.foldl (fun u w => if w.Name = pkg.Name then u else u) ()

/-- One iteration of the `case pkg := <-packageC` branch of upAUR
(src/upgrade.go 217-223): run the duplicate scan, then append the received
record to the accumulated list. -/
def upAURstep (toUpgrade : List upgrade) (pkg : upgrade) : upSlice :=
  let _scan := dedupScan toUpgrade pkg
  toUpgrade ++ [pkg]

/-- The accumulation performed by the upAUR receive loop over the stream of
records received on the package channel, in arrival order
(src/upgrade.go 215-231). -/
def upAURaccumulate (received : List upgrade) : upSlice :=
  received.foldl upAURstep []

/-- containsInt (src/upgrade.go 259-266): linear membership scan. -/
def containsInt : List Int → Int → Bool
  | [], _ => false
  | a :: rest, e => if a = e then true else containsInt rest e

/-- removeIntListFromList (src/upgrade.go 269-279): removes from `target`
every element present in `src`; the Go in-place removal with the i/max
adjustments visits every element once, i.e. it filters `target`. -/
def removeIntListFromList (src : List Int) : List Int → List Int
  | [] => []
  | t :: ts =>
    if containsInt src t then removeIntListFromList src ts
    else t :: removeIntListFromList src ts

/-- Decimal digit-string value, `none` when empty or a non-digit occurs. -/
def digitsToNat? (cs : List Char) : Option Nat :=
  if cs = [] then none
  else
    cs.foldl
      (fun acc c =>
        match acc with
        | none => none
        | some n => if c.isDigit then some (n * 10 + (c.toNat - 48)) else none)
      (some 0)

/-- strconv.Atoi (Go standard library): an optional sign followed by decimal
digits; `none` models a parse error.  (Go additionally errors on 64-bit
overflow; every claim here only compares the value against small list
lengths, for which the unbounded model and the 64-bit one agree.) -/
def Atoi (s : String) : Option Int :=
  match s.data with
  | '+' :: rest => (digitsToNat? rest).map (fun n => (n : Int))
  | '-' :: rest => (digitsToNat? rest).map (fun n => -(n : Int))
  | cs => (digitsToNat? cs).map (fun n => (n : Int))

/-- Modelled from the spec: `BuildIntRange` is defined outside src/; it
returns the inclusive integer range between its arguments, ascending, in
either argument order ("A may exceed or be less than B"). -/
def BuildIntRange (lo hi : Int) : List Int :=
  (List.range (max lo hi - min lo hi + 1).toNat).map
    (fun (k : Nat) => min lo hi + (k : Int))

/-- Split of a character list at every dash, the semantics of Go's
`strings.Split(s, "-")`: always at least one field, empty fields kept. -/
def splitOnDash : List Char → List (List Char)
  | [] => [[]]
  | c :: rest =>
    if c = '-' then [] :: splitOnDash rest
    else
      match splitOnDash rest with
      | h :: t => (c :: h) :: t
      | [] => [[c]]

/-- Modelled from the spec: `BuildRange` is defined outside src/; it parses an
inclusive dash-range token "A-B" into the integer range between A and B,
failing on any other shape. -/
def BuildRange (s : String) : Option (List Int) :=
  match splitOnDash s.data with
  | [a, b] =>
    match Atoi ⟨a⟩, Atoi ⟨b⟩ with
    | some x, some y => some (BuildIntRange x y)
    | _, _ => none
  | _ => none

/-- The four index lists accumulated by the selection-parsing loop of
upgradePkgs (src/upgrade.go 283-284, 312-313): positive selections and
exclusions, per source list. -/
structure SelState where
  aurNums : List Int
  repoNums : List Int
  excludeAur : List Int
  excludeRepo : List Int
deriving DecidableEq, Repr

/-- The initial selection state: all four lists empty. -/
def SelState.empty : SelState := ⟨[], [], [], []⟩

/-- The per-number body of the selection loop (src/upgrade.go 329-347):
a display number outside [1, len(aurUp)+len(repoUp)] is skipped; a number
≤ len(aurUp) is mapped to AUR internal index len(aurUp)−target and appended
to the exclusion or selection list for AUR according to the `^` flag; a
larger number is mapped to repo internal index len(aurUp)+len(repoUp)−target
and appended to the corresponding repo list. -/
def processTarget (nA nR : Nat) (negate : Bool) (st : SelState) (target : Int) :
    SelState :=
  if target > (nA : Int) + (nR : Int) ∨ target ≤ 0 then st
  else if target ≤ (nA : Int) then
    let t : Int := (nA : Int) - target
    if negate then { st with excludeAur := st.excludeAur ++ [t] }
    else { st with aurNums := st.aurNums ++ [t] }
  else
    let t : Int := (nA : Int) + (nR : Int) - target
    if negate then { st with excludeRepo := st.excludeRepo ++ [t] }
    else { st with repoNums := st.repoNums ++ [t] }

/-- Token decomposition (src/upgrade.go 315-328): a leading '^' marks the
token as an exclusion and is stripped; the remainder is parsed by Atoi as a
single number, falling back to BuildRange for a dash-range; `none` means the
token parses as neither.  (Tokens come from strings.Fields and are nonempty;
on the empty token Go would index out of range, the model returns no parse.) -/
def parseToken (tok : String) : Bool × Option (List Int) :=
  let negate : Bool := tok.data.head? = some '^'
  let numS : String := if negate then ⟨tok.data.tail⟩ else tok
  match Atoi numS with
  | some num => (negate, some [num])
  | none => (negate, BuildRange numS)

/-- One token of the selection loop (src/upgrade.go 314-348): an unparsable
token leaves the state unchanged (`continue`); otherwise every parsed number
is folded through processTarget. -/
def processToken (nA nR : Nat) (st : SelState) (tok : String) : SelState :=
  match parseToken tok with
  | (negate, some numbers) => numbers.foldl (processTarget nA nR negate) st
  | (_, none) => st

/-- The post-parsing policy and subtraction of upgradePkgs
(src/upgrade.go 349-359): if neither selection list received an entry but
some exclusion did, the selection lists are filled with the full index range
of their (nonempty) lists; then each exclusion list is removed from its
selection list.  Result: (final aurNums, final repoNums). -/
def applyExcludePolicy (nA nR : Nat) (st : SelState) : List Int × List Int :=
  let pair :=
    if st.repoNums = [] ∧ st.aurNums = [] ∧ (st.excludeRepo ≠ [] ∨ st.excludeAur ≠ []) then
      ((if 0 < nA then BuildIntRange 0 ((nA : Int) - 1) else st.aurNums),
       (if 0 < nR then BuildIntRange 0 ((nR : Int) - 1) else st.repoNums))
    else (st.aurNums, st.repoNums)
  (removeIntListFromList st.excludeAur pair.1, removeIntListFromList st.excludeRepo pair.2)

/-- The final name-collection loops of upgradePkgs (src/upgrade.go 362-384):
walk the list and add to the name set every entry whose position is not in
`nums` (the indices selected as "do not upgrade").  Go's stringSet (a
name-keyed map defined outside src/) is modelled as a finite set of names. -/
def collectNames (u : upSlice) (nums : List Int) : Finset String :=
  u.enum.foldl
    (fun acc ik => if containsInt nums (ik.1 : Int) then acc else insert ik.2.Name acc) ∅

/-- upgradePkgs (src/upgrade.go 282-387) after a successful upList, as a
function of the two fetched lists, the NoConfirm flag and the
whitespace-split selection tokens.  When both lists are empty it returns
empty sets; otherwise the repo list is sorted for display, the selection
tokens are parsed against the displayed lengths (with NoConfirm skipping the
prompt entirely, leaving both "do not upgrade" lists empty), and the final
(repo names, AUR names) sets keep every entry not selected for exclusion. -/
def upgradePkgs (aurUp0 repoUp0 : upSlice) (noConfirm : Bool) (tokens : List String) :
    Finset String × Finset String :=
  if aurUp0.length + repoUp0.length = 0 then (∅, ∅)
  else
    let d := displayLists aurUp0 repoUp0
    let repoUp := d.1
    let aurUp := d.2
    let nums :=
      if noConfirm then ([], [])
      else
        applyExcludePolicy aurUp.length repoUp.length
          (tokens.foldl (processToken aurUp.length repoUp.length) SelState.empty)
    (collectNames repoUp nums.2, collectNames aurUp nums.1)

end Yay

namespace Yay

/-- Claim C4 (counterexample): when only the old side fails to parse, the new
side's display is the empty string, not a display computed from its parsed
components — two different parses of the valid side give the same empty
output, so nothing of the parsed components reaches the display. -/
theorem C4_counterexample :
    (getVersionDiff none (some ⟨0, "1.0", "1"⟩)).2 = "" ∧
    (getVersionDiff none (some ⟨0, "1.0", "1"⟩)).2 ≠ "1.0" ++ "-" ++ "1" ∧
    (getVersionDiff none (some ⟨0, "1.0", "1"⟩)).2 ≠ "1.0" ++ "-" ++ green "1" ∧
    (getVersionDiff none (some ⟨0, "1.0", "1"⟩)).2
      = (getVersionDiff none (some ⟨7, "9.9", "3"⟩)).2 := by
  refine ⟨rfl, by decide, by decide, rfl⟩

/-- Claim C4 (amended): for every pair where at least one side fails to
parse, getVersionDiff returns the fixed "Invalid Version" marker for each
failing side and leaves the other side as the empty string (it is not
computed from its parsed components); the function is total, so no error is
ever returned. -/
theorem C4_invalid_marker (v : CompleteVersion) :
    getVersionDiff none (some v) = (red "Invalid Version", "") ∧
    getVersionDiff (some v) none = ("", red "Invalid Version") ∧
    getVersionDiff none none = (red "Invalid Version", red "Invalid Version") := by
  refine ⟨rfl, rfl, rfl⟩

/-- Claim C5 (counterexample): two parsed versions whose epoch+version
component differs (the epochs differ) but whose pkgver is identical take the
release-emphasis branch, not the claimed whole-version-emphasis form, because
the code compares only the pkgver fields and ignores the epoch. -/
theorem C5_counterexample :
    (⟨1, "1.0", "1"⟩ : CompleteVersion).Epoch ≠ (⟨2, "1.0", "2"⟩ : CompleteVersion).Epoch ∧
    getVersionDiff (some ⟨1, "1.0", "1"⟩) (some ⟨2, "1.0", "2"⟩)
      = ("1.0" ++ "-" ++ red "1", "1.0" ++ "-" ++ green "2") ∧
    ("1.0" ++ "-" ++ red "1", "1.0" ++ "-" ++ green "2")
      ≠ (red "1.0" ++ "-" ++ "1", bold (green "1.0") ++ "-" ++ "2") := by
  refine ⟨by decide, rfl, by decide⟩

/-- Claim C5 (amended): for parsed version pairs the branch is decided by the
pkgver component alone (the epoch is ignored): if the pkgvers agree and the
releases differ, both displays are "version-release" with the identical,
unemphasized version text and only the release segments emphasized (old
release red, new release green); if the pkgvers differ, the whole version
portion is emphasized on both sides (old red, new bold green) and the release
segment is unemphasized. -/
theorem C5_release_emphasis (o n : CompleteVersion) :
    (o.Version = n.Version → o.Pkgrel ≠ n.Pkgrel →
      getVersionDiff (some o) (some n)
        = (o.Version ++ "-" ++ red o.Pkgrel, n.Version ++ "-" ++ green n.Pkgrel)) ∧
    (o.Version ≠ n.Version →
      getVersionDiff (some o) (some n)
        = (red o.Version ++ "-" ++ o.Pkgrel, bold (green n.Version) ++ "-" ++ n.Pkgrel)) := by
  constructor
  · intro h _
    simp [getVersionDiff, h]
  · intro h
    simp [getVersionDiff, h]

/-- Witness for C5_release_emphasis at concrete parsed versions. -/
theorem C5_release_emphasis_witness :
    getVersionDiff (some ⟨0, "1.0", "1"⟩) (some ⟨0, "1.0", "2"⟩)
      = ("1.0" ++ "-" ++ red "1", "1.0" ++ "-" ++ green "2") ∧
    getVersionDiff (some ⟨0, "1.0", "1"⟩) (some ⟨0, "2.0", "1"⟩)
      = (red "1.0" ++ "-" ++ "1", bold (green "2.0") ++ "-" ++ "1") :=
  ⟨(C5_release_emphasis ⟨0, "1.0", "1"⟩ ⟨0, "1.0", "2"⟩).1 (by decide) (by decide),
   (C5_release_emphasis ⟨0, "1.0", "1"⟩ ⟨0, "2.0", "1"⟩).2 (by decide)⟩

/-- Claim C1 (counterexample): with one AUR upgrade B displayed as 1 and one
repo upgrade A displayed as 2, the selection token "^1" does not produce the
claimed ({A}, ∅): the prompt collects packages NOT to upgrade, so `^1`
inverts to "skip everything except display 1", keeping only B. -/
theorem C1_counterexample :
    upgradePkgs [⟨"B", "aur", "2.0-1", "2.1-1"⟩] [⟨"A", "core", "1.0-1", "1.0-2"⟩]
        false ["^1"]
      ≠ (({"A"} : Finset String), (∅ : Finset String)) := by
  decide

/-- Claim C1 (amended): with totalForeign = totalLocal = 1, no ignores and
selection token "^1" (display 1 mapping to the foreign entry B), upgradePkgs
returns the empty set for the local-repo names and exactly {B} for the
foreign names: the caret selection keeps only B for upgrade and excludes A. -/
theorem C1_caret_keeps_only_target :
    upgradePkgs [⟨"B", "aur", "2.0-1", "2.1-1"⟩] [⟨"A", "core", "1.0-1", "1.0-2"⟩]
        false ["^1"]
      = ((∅ : Finset String), ({"B"} : Finset String)) := by
  decide

/-- Claim C2: when the initial filtering succeeds, a fetch error from the
foreign source is only printed, never returned — upList still returns the
local-repo list actually obtained (and the foreign list the fetcher
delivered), its error result is nil, and in general the error result equals
exactly the filtering error. -/
theorem C2_partial_success (repoRes aurRes : FetchResult) (e : String)
    (h : aurRes.err = some e) :
    (upList none repoRes aurRes).2.1 = repoRes.list ∧
    (upList none repoRes aurRes).1 = aurRes.list ∧
    (upList none repoRes aurRes).2.2.1 = none ∧
    e ∈ (upList none repoRes aurRes).2.2.2 ∧
    (∀ fe : Option String, (upList fe repoRes aurRes).2.2.1 = fe) := by
  refine ⟨rfl, rfl, rfl, ?_, ?_⟩
  · simp [upList, h, optErrLog]
  · intro fe
    cases fe <;> rfl

/-- Witness for C2_partial_success: a concrete failing foreign fetch beside a
successful repo fetch with one real result. -/
theorem C2_partial_success_witness :
    (upList none ⟨[⟨"A", "core", "1.0-1", "1.0-2"⟩], none⟩ ⟨[], some "aur down"⟩).2.1
      = [⟨"A", "core", "1.0-1", "1.0-2"⟩] ∧
    (upList none ⟨[⟨"A", "core", "1.0-1", "1.0-2"⟩], none⟩ ⟨[], some "aur down"⟩).2.2.1
      = none :=
  ⟨(C2_partial_success ⟨[⟨"A", "core", "1.0-1", "1.0-2"⟩], none⟩ ⟨[], some "aur down"⟩
      "aur down" rfl).1,
   (C2_partial_success ⟨[⟨"A", "core", "1.0-1", "1.0-2"⟩], none⟩ ⟨[], some "aur down"⟩
      "aur down" rfl).2.2.1⟩

/-- The upAUR receive loop appends the whole received stream in order. -/
theorem foldl_upAURstep (l : List upgrade) (acc : upSlice) :
    l.foldl upAURstep acc = acc ++ l := by
  induction l generalizing acc with
  | nil => simp
  | cons x xs ih => simp [upAURstep, ih]

/-- Claim C3: the duplicate scan before each append in upAUR is a no-op — one
receive-loop step always appends the received record, and the accumulated
result over any received stream is exactly that stream, duplicates included. -/
theorem C3_scan_is_noop :
    (∀ (acc : upSlice) (pkg : upgrade), upAURstep acc pkg = acc ++ [pkg]) ∧
    (∀ received : List upgrade, upAURaccumulate received = received) := by
  constructor
  · intro acc pkg
    rfl
  · intro received
    simpa using foldl_upAURstep received []

/-- findLast returns none exactly when no entry of the list carries the
wanted name. -/
theorem findLast_eq_none (remote : List alpmPackage) (name : String) :
    findLast remote name = none ↔ ∀ r ∈ remote, r.Name ≠ name := by
  have go : ∀ (l : List alpmPackage) (acc : Option alpmPackage),
      l.foldl (fun acc r => if r.Name = name then some r else acc) acc = none ↔
        acc = none ∧ ∀ r ∈ l, r.Name ≠ name := by
    intro l
    induction l with
    | nil => simp
    | cons x xs ih =>
      intro acc
      simp only [List.foldl_cons, List.mem_cons]
      rw [ih]
      by_cases h : x.Name = name
      · simp [h]
      · simp [h]
  simpa using go remote none

/-- Claim C9: for a VCS entry whose needsUpdate predicate holds, upDevel does
exactly one of: emit an upgrade record with the synthetic "latest-commit"
candidate when a matching installed package exists and is not ignore-flagged;
emit only a warning when the match is ignore-flagged; request removal of the
entry's name when no installed package matches (the match being absent
exactly when no remote entry carries the name). -/
theorem C9_devel_trichotomy (remote : List alpmPackage) (name : String) :
    (∀ pkg, findLast remote name = some pkg → pkg.ShouldIgnore = false →
      upDevelEntry remote name true
        = ⟨[⟨pkg.Name, "devel", pkg.Version, "latest-commit"⟩], [], []⟩) ∧
    (∀ pkg, findLast remote name = some pkg → pkg.ShouldIgnore = true →
      upDevelEntry remote name true = ⟨[], [pkg.Name], []⟩) ∧
    (findLast remote name = none →
      upDevelEntry remote name true = ⟨[], [], [name]⟩) ∧
    (findLast remote name = none ↔ ∀ r ∈ remote, r.Name ≠ name) := by
  refine ⟨?_, ?_, ?_, findLast_eq_none remote name⟩
  · intro pkg hfind hflag
    simp [upDevelEntry, hfind, hflag]
  · intro pkg hfind hflag
    simp [upDevelEntry, hfind, hflag]
  · intro hfind
    simp [upDevelEntry, hfind]

/-- Witness for C9_devel_trichotomy on concrete stores: an unflagged match, an
ignore-flagged match, and a stale entry with no match. -/
theorem C9_devel_trichotomy_witness :
    upDevelEntry [⟨"p", "1.0", false⟩] "p" true
      = ⟨[⟨"p", "devel", "1.0", "latest-commit"⟩], [], []⟩ ∧
    upDevelEntry [⟨"q", "2.0", true⟩] "q" true = ⟨[], ["q"], []⟩ ∧
    upDevelEntry [] "r" true = ⟨[], [], ["r"]⟩ :=
  ⟨(C9_devel_trichotomy [⟨"p", "1.0", false⟩] "p").1 ⟨"p", "1.0", false⟩ (by decide) rfl,
   (C9_devel_trichotomy [⟨"q", "2.0", true⟩] "q").2.1 ⟨"q", "2.0", true⟩ (by decide) rfl,
   (C9_devel_trichotomy [] "r").2.2.1 rfl⟩

/-- containsInt decides list membership. -/
theorem containsInt_iff (s : List Int) (e : Int) : containsInt s e = true ↔ e ∈ s := by
  induction s with
  | nil => simp [containsInt]
  | cons a rest ih =>
    by_cases h : a = e
    · simp [containsInt, h]
    · simp [containsInt, h, ih]
      exact fun hc => (h hc.symm).elim

/-- removeIntListFromList keeps exactly the target elements absent from src. -/
theorem mem_removeIntListFromList (src target : List Int) (x : Int) :
    x ∈ removeIntListFromList src target ↔ x ∈ target ∧ x ∉ src := by
  induction target with
  | nil => simp [removeIntListFromList]
  | cons t ts ih =>
    by_cases h : containsInt src t = true
    · have ht : t ∈ src := (containsInt_iff src t).mp h
      simp only [removeIntListFromList, if_pos h, ih, List.mem_cons]
      constructor
      · exact fun ⟨h1, h2⟩ => ⟨Or.inr h1, h2⟩
      · rintro ⟨h1 | h1, h2⟩
        · exact absurd (h1 ▸ ht) h2
        · exact ⟨h1, h2⟩
    · have ht : t ∉ src := fun hm => h ((containsInt_iff src t).mpr hm)
      simp only [removeIntListFromList, if_neg h, List.mem_cons, ih]
      constructor
      · rintro (rfl | ⟨h1, h2⟩)
        · exact ⟨Or.inl rfl, ht⟩
        · exact ⟨Or.inr h1, h2⟩
      · rintro ⟨rfl | h1, h2⟩
        · exact Or.inl rfl
        · exact Or.inr ⟨h1, h2⟩

/-- Membership in an ascending inclusive integer range. -/
theorem mem_range_ascending (a b x : Int) (hab : a ≤ b) :
    x ∈ (List.range (b - a + 1).toNat).map (fun (k : Nat) => a + (k : Int)) ↔
      a ≤ x ∧ x ≤ b := by
  constructor
  · intro h
    rcases List.mem_map.mp h with ⟨k, hk, rfl⟩
    rw [List.mem_range] at hk
    constructor <;> omega
  · rintro ⟨h1, h2⟩
    refine List.mem_map.mpr ⟨(x - a).toNat, ?_, ?_⟩
    · rw [List.mem_range]
      omega
    · omega

/-- Membership in a BuildIntRange is the inclusive interval between the
endpoints, in either order. -/
theorem mem_BuildIntRange (lo hi x : Int) :
    x ∈ BuildIntRange lo hi ↔ min lo hi ≤ x ∧ x ≤ max lo hi := by
  unfold BuildIntRange
  exact mem_range_ascending _ _ _ min_le_max

/-- A display number outside [1, nA + nR] leaves the selection state
unchanged. -/
theorem processTarget_skip (nA nR : Nat) (negate : Bool) (st : SelState) (n : Int)
    (h : n ≤ 0 ∨ (nA : Int) + (nR : Int) < n) :
    processTarget nA nR negate st n = st := by
  unfold processTarget
  rw [if_pos]
  omega

/-- Claim C7: after parsing, if no positive selection was recorded for either
list but some exclusion was, the final selection lists hold exactly the full
index range of each list minus that list's exclusions; otherwise they hold
exactly the explicitly selected indices minus the exclusions — each list's
exclusion set is subtracted from that list's own selection set. -/
theorem C7_exclude_policy (nA nR : Nat) (st : SelState) :
    (st.repoNums = [] → st.aurNums = [] →
     (st.excludeRepo ≠ [] ∨ st.excludeAur ≠ []) →
      (∀ x : Int, x ∈ (applyExcludePolicy nA nR st).1 ↔
        (0 ≤ x ∧ x < (nA : Int)) ∧ x ∉ st.excludeAur) ∧
      (∀ x : Int, x ∈ (applyExcludePolicy nA nR st).2 ↔
        (0 ≤ x ∧ x < (nR : Int)) ∧ x ∉ st.excludeRepo)) ∧
    (¬ (st.repoNums = [] ∧ st.aurNums = [] ∧
        (st.excludeRepo ≠ [] ∨ st.excludeAur ≠ [])) →
      (∀ x : Int, x ∈ (applyExcludePolicy nA nR st).1 ↔
        x ∈ st.aurNums ∧ x ∉ st.excludeAur) ∧
      (∀ x : Int, x ∈ (applyExcludePolicy nA nR st).2 ↔
        x ∈ st.repoNums ∧ x ∉ st.excludeRepo)) := by
  constructor
  · intro h1 h2 h3
    have hc : st.repoNums = [] ∧ st.aurNums = [] ∧
        (st.excludeRepo ≠ [] ∨ st.excludeAur ≠ []) := ⟨h1, h2, h3⟩
    constructor
    · intro x
      simp only [applyExcludePolicy, if_pos hc, mem_removeIntListFromList]
      by_cases hA : 0 < nA
      · rw [if_pos hA]
        rw [mem_BuildIntRange]
        constructor
        · rintro ⟨⟨ha, hb⟩, hx⟩
          refine ⟨⟨?_, ?_⟩, hx⟩ <;> omega
        · rintro ⟨⟨ha, hb⟩, hx⟩
          refine ⟨⟨?_, ?_⟩, hx⟩ <;> omega
      · rw [if_neg hA, h2]
        constructor
        · rintro ⟨hmem, _⟩
          exact absurd hmem (List.not_mem_nil x)
        · rintro ⟨⟨ha, hb⟩, _⟩
          exact absurd rfl (by omega : ¬ (0 : Int) = 0)
    · intro x
      simp only [applyExcludePolicy, if_pos hc, mem_removeIntListFromList]
      by_cases hR : 0 < nR
      · rw [if_pos hR]
        rw [mem_BuildIntRange]
        constructor
        · rintro ⟨⟨ha, hb⟩, hx⟩
          refine ⟨⟨?_, ?_⟩, hx⟩ <;> omega
        · rintro ⟨⟨ha, hb⟩, hx⟩
          refine ⟨⟨?_, ?_⟩, hx⟩ <;> omega
      · rw [if_neg hR, h1]
        constructor
        · rintro ⟨hmem, _⟩
          exact absurd hmem (List.not_mem_nil x)
        · rintro ⟨⟨ha, hb⟩, _⟩
          exact absurd rfl (by omega : ¬ (0 : Int) = 0)
  · intro hc
    constructor
    · intro x
      simp only [applyExcludePolicy, if_neg hc, mem_removeIntListFromList]
    · intro x
      simp only [applyExcludePolicy, if_neg hc, mem_removeIntListFromList]

/-- Witness for C7_exclude_policy: with lists of length 1 and 1, the
exclusion-only state {excludeAur = [0]} inverts to "everything except AUR
index 0": repo index 0 stays selected as not-to-upgrade, AUR index 0 does
not; and a state with an explicit selection is left as the selection minus
the exclusions. -/
theorem C7_exclude_policy_witness :
    ((0 : Int) ∉ (applyExcludePolicy 1 1 ⟨[], [], [0], []⟩).1 ∧
     (0 : Int) ∈ (applyExcludePolicy 1 1 ⟨[], [], [0], []⟩).2) ∧
    ((0 : Int) ∈ (applyExcludePolicy 1 1 ⟨[0], [], [], [0]⟩).1 ∧
     (0 : Int) ∉ (applyExcludePolicy 1 1 ⟨[0], [], [], [0]⟩).2) := by
  constructor
  · constructor
    · have h := ((C7_exclude_policy 1 1 ⟨[], [], [0], []⟩).1 rfl rfl
        (Or.inr (by decide))).1 0
      simp only [h]
      decide
    · have h := ((C7_exclude_policy 1 1 ⟨[], [], [0], []⟩).1 rfl rfl
        (Or.inr (by decide))).2 0
      simp only [h]
      decide
  · constructor
    · have h := ((C7_exclude_policy 1 1 ⟨[0], [], [], [0]⟩).2 (by decide)).1 0
      simp only [h]
      decide
    · have h := ((C7_exclude_policy 1 1 ⟨[0], [], [], [0]⟩).2 (by decide)).2 0
      simp only [h]
      decide

/-- Claim C8: a selection token that parses as neither a single integer nor a
range, or whose parsed numbers all lie outside [1, nA + nR], contributes
nothing to any of the four selection/exclusion lists and raises no error: the
state is returned unchanged and processing continues with the next token. -/
theorem C8_bad_token_skipped (nA nR : Nat) (st : SelState) (tok : String) :
    ((parseToken tok).2 = none → processToken nA nR st tok = st) ∧
    (∀ (negate : Bool) (numbers : List Int),
      parseToken tok = (negate, some numbers) →
      (∀ n ∈ numbers, n ≤ 0 ∨ (nA : Int) + (nR : Int) < n) →
      processToken nA nR st tok = st) := by
  constructor
  · intro h
    unfold processToken
    rcases hp : parseToken tok with ⟨neg, numbers⟩
    rw [hp] at h
    simp only at h
    rw [h]
  · intro negate numbers hp hout
    unfold processToken
    rw [hp]
    simp only
    clear hp
    induction numbers generalizing st with
    | nil => rfl
    | cons n ns ih =>
      rw [List.foldl_cons,
        processTarget_skip nA nR negate st n (hout n (List.mem_cons_self n ns))]
      exact ih st fun m hm => hout m (List.mem_cons_of_mem n hm)

/-- Witness for C8_bad_token_skipped: the malformed token "abc" and the
out-of-range token "99" (against lengths 3 and 2) both leave the empty state
unchanged. -/
theorem C8_bad_token_skipped_witness :
    processToken 3 2 SelState.empty "abc" = SelState.empty ∧
    processToken 3 2 SelState.empty "99" = SelState.empty :=
  ⟨(C8_bad_token_skipped 3 2 SelState.empty "abc").1 (by decide),
   (C8_bad_token_skipped 3 2 SelState.empty "99").2 false [99] (by decide)
     (by decide)⟩

/-- An in-range display number ≤ nA is routed to the AUR list at internal
index nA − N. -/
theorem processTarget_aur (nA nR : Nat) (negate : Bool) (st : SelState) (N : Int)
    (h1 : 1 ≤ N) (hN : N ≤ (nA : Int)) :
    processTarget nA nR negate st N =
      if negate then { st with excludeAur := st.excludeAur ++ [(nA : Int) - N] }
      else { st with aurNums := st.aurNums ++ [(nA : Int) - N] } := by
  unfold processTarget
  rw [if_neg (by omega), if_pos hN]

/-- An in-range display number > nA is routed to the repo list at internal
index nA + nR − N. -/
theorem processTarget_repo (nA nR : Nat) (negate : Bool) (st : SelState) (N : Int)
    (h2 : N ≤ (nA : Int) + (nR : Int)) (hN : (nA : Int) < N) :
    processTarget nA nR negate st N =
      if negate then
        { st with excludeRepo := st.excludeRepo ++ [(nA : Int) + (nR : Int) - N] }
      else { st with repoNums := st.repoNums ++ [(nA : Int) + (nR : Int) - N] } := by
  unfold processTarget
  rw [if_neg (by omega), if_neg (by omega)]

/-- Claim C6: the printed display numbering (repo list printed with start
nF+1, foreign list with start 1, entry k of a list of length len numbered
len+start−k−1) and the parser's reverse mapping are mutually inverse: every
display number N in [1, nF+nL] is routed by the parser to exactly one
(source, internal index) pair — to the AUR list at index nF−N when N ≤ nF,
else to the repo list at index nF+nL−N, for selections and exclusions alike —
the routed index is in range, the entry at that position is printed with
number N, and conversely a position printed with number N is exactly the
routed one. -/
theorem C6_display_mapping (nF nL : Nat) (N : Int)
    (h1 : 1 ≤ N) (h2 : N ≤ (nF : Int) + (nL : Int)) :
    (N ≤ (nF : Int) →
      processTarget nF nL false SelState.empty N
          = ⟨[(nF : Int) - N], [], [], []⟩ ∧
        processTarget nF nL true SelState.empty N
          = ⟨[], [], [(nF : Int) - N], []⟩ ∧
        ((nF : Int) - N).toNat < nF ∧
        printNumber nF 1 ((nF : Int) - N).toNat = N) ∧
    ((nF : Int) < N →
      processTarget nF nL false SelState.empty N
          = ⟨[], [(nF : Int) + (nL : Int) - N], [], []⟩ ∧
        processTarget nF nL true SelState.empty N
          = ⟨[], [], [], [(nF : Int) + (nL : Int) - N]⟩ ∧
        ((nF : Int) + (nL : Int) - N).toNat < nL ∧
        printNumber nL (nF + 1) ((nF : Int) + (nL : Int) - N).toNat = N) ∧
    (∀ k : Nat, k < nF → printNumber nF 1 k = N →
      N ≤ (nF : Int) ∧ (nF : Int) - N = (k : Int)) ∧
    (∀ k : Nat, k < nL → printNumber nL (nF + 1) k = N →
      (nF : Int) < N ∧ (nF : Int) + (nL : Int) - N = (k : Int)) := by
  refine ⟨?_, ?_, ?_, ?_⟩
  · intro hN
    refine ⟨?_, ?_, by omega, ?_⟩
    · rw [processTarget_aur nF nL false SelState.empty N h1 hN]
      simp [SelState.empty]
    · rw [processTarget_aur nF nL true SelState.empty N h1 hN]
      simp [SelState.empty]
    · unfold printNumber
      omega
  · intro hN
    refine ⟨?_, ?_, by omega, ?_⟩
    · rw [processTarget_repo nF nL false SelState.empty N h2 hN]
      simp [SelState.empty]
    · rw [processTarget_repo nF nL true SelState.empty N h2 hN]
      simp [SelState.empty]
    · unfold printNumber
      omega
  · intro k hk hpn
    unfold printNumber at hpn
    constructor <;> omega
  · intro k hk hpn
    unfold printNumber at hpn
    constructor <;> omega

/-- Witness for C6_display_mapping: with one foreign and one local entry,
display number 1 is routed to AUR internal index 0, which is printed with
number 1; display number 2 is routed to repo internal index 0, printed with
number 2. -/
theorem C6_display_mapping_witness :
    processTarget 1 1 false SelState.empty 1 = ⟨[0], [], [], []⟩ ∧
    printNumber 1 1 0 = 1 ∧
    processTarget 1 1 false SelState.empty 2 = ⟨[], [0], [], []⟩ ∧
    printNumber 1 2 0 = 2 :=
  ⟨((C6_display_mapping 1 1 1 (by decide) (by decide)).1 (by decide)).1,
   by
    have h := ((C6_display_mapping 1 1 1 (by decide) (by decide)).1 (by decide)).2.2.2
    simpa using h,
   ((C6_display_mapping 1 1 2 (by decide) (by decide)).2.1 (by decide)).1,
   by
    have h := ((C6_display_mapping 1 1 2 (by decide) (by decide)).2.1 (by decide)).2.2.2
    simpa using h⟩

/-- Records whose Repository runes agree up to the shorter one's length are
unordered by the rune loop. -/
theorem lessRunes_agree_false :
    ∀ r1 r2 : List Char,
      r1.take r2.length = r2.take r1.length → lessRunes r1 r2 = false := by
  intro r1
  induction r1 with
  | nil =>
    intro r2 _
    cases r2 <;> rfl
  | cons a as ih =>
    intro r2 h
    cases r2 with
    | nil => rfl
    | cons b bs =>
      simp only [List.length_cons, List.take_succ_cons, List.cons.injEq] at h
      obtain ⟨rfl, h2⟩ := h
      simp only [lessRunes, ne_eq, not_true_eq_false, if_false, ite_self]
      exact ih bs h2

/-- Insertion keeps the inserted element and the rest, as a permutation. -/
theorem insertLess_perm (x : upgrade) (l : upSlice) :
    (insertLess x l).Perm (x :: l) := by
  induction l with
  | nil => exact List.Perm.refl _
  | cons y ys ih =>
    unfold insertLess
    by_cases h : lessRunes x.Repository.data y.Repository.data
    · rw [if_pos h]
    · rw [if_neg h]
      exact (ih.cons y).trans (List.Perm.swap x y ys)

/-- sortUp permutes its input. -/
theorem sortUp_perm (u : upSlice) : (sortUp u).Perm u := by
  induction u with
  | nil => exact List.Perm.refl _
  | cons x xs ih =>
    exact (insertLess_perm x (sortUp xs)).trans (ih.cons x)

/-- Claim C10: the display ordering inspects only the Repository field (Less
is the rune loop applied to the two Repository fields, never touching names
or versions); two records whose Repository fields agree up to the shorter
one's length (e.g. "core" vs "core2") are unordered — Less yields false for
both argument orders; and only the local-repo list is sorted for display (as
a Less-respecting permutation), while the foreign list is displayed exactly
in discovery order. -/
theorem C10_ordering :
    (∀ (u : upSlice) (i j : Nat),
      Less u i j
        = lessRunes ((u.getD i default).Repository).data
            ((u.getD j default).Repository).data) ∧
    (∀ r1 r2 : String,
      r1.data.take r2.data.length = r2.data.take r1.data.length →
      lessRunes r1.data r2.data = false ∧ lessRunes r2.data r1.data = false) ∧
    (∀ aurUp repoUp : upSlice, (displayLists aurUp repoUp).2 = aurUp) ∧
    (∀ aurUp repoUp : upSlice, ((displayLists aurUp repoUp).1).Perm repoUp) := by
  refine ⟨fun u i j => rfl, ?_, fun aurUp repoUp => rfl, fun aurUp repoUp => sortUp_perm repoUp⟩
  intro r1 r2 h
  exact ⟨lessRunes_agree_false r1.data r2.data h,
    lessRunes_agree_false r2.data r1.data h.symm⟩

/-- Witness for C10_ordering: "core" and "core2" agree up to the shorter
length, so neither is Less than the other. -/
theorem C10_ordering_witness :
    lessRunes "core".data "core2".data = false ∧
    lessRunes "core2".data "core".data = false :=
  C10_ordering.2.1 "core" "core2" (by decide)

end Yay
